import Mathlib

/-!
Verification development for the obsidian-calendar-to-notes plugin
(src/main.ts).  The definitions below are a shallow embedding of the
plugin's event pipeline: timestamps are epoch milliseconds modelled as
`Int` (JavaScript `Date` values compare via their numeric value), the
decoded feed is a list of event descriptors, and the stateful methods of
`MeetingNotesPlugin` become pure functions from their inputs (decoded
data, HTTP response, persisted record) to their outputs (event list,
notices, persisted record).
-/

/-- Canonical materialized event, mirroring `interface CalendarEvent`
(src/main.ts lines 22-30).  `start` and `end_` are epoch milliseconds. -/
structure CalendarEvent where
  uid : String
  summary : String
  description : String
  location : String
  start : Int
  end_ : Int
  attendees : List String
deriving DecidableEq

/-- A decoded VEVENT as the parser sees it after `new ICAL.Event(vevent)`:
either a singular event with concrete start/end, or a recurring one whose
rule yields a stream of occurrence starts (modelled by the finite prefix
of candidates the loop may consume) plus the base duration in
milliseconds (`event.duration.toSeconds() * 1000`). -/
inductive VEventDesc where
  | singular (uid : String) (summary description location : Option String)
      (attendees : List String) (startDate endDate : Int)
  | recurring (uid : String) (summary description location : Option String)
      (attendees : List String) (candidates : List Int) (duration : Int)
deriving DecidableEq

/-- The recurrence expansion loop of `parseICSData` (src/main.ts lines
249-271) restricted to the occurrence starts it emits: iterate the
rule's candidates in order; `if (occurrence > sixWeeksLater) break;`
stops the whole iteration, and an occurrence is emitted only when
`occurrence >= fourWeeksAgo && occurrence <= sixWeeksLater`. -/
def expandOccurrences (windowStart windowEnd : Int) : List Int → List Int
  | [] => []
  | occ :: rest =>
    if windowEnd < occ then []
    else if windowStart ≤ occ ∧ occ ≤ windowEnd then
      occ :: expandOccurrences windowStart windowEnd rest
    else expandOccurrences windowStart windowEnd rest

/-- One pass of the `vevents.forEach` body of `parseICSData` (src/main.ts
lines 224-288): a recurring event contributes one `CalendarEvent` per
emitted occurrence with `uid = event.uid + '-' + occurrence.getTime()`
and `end = occurrence + duration`; a singular event contributes itself
when its start lies in the window.  Missing summary defaults to
`'Untitled Event'`, missing description/location to the empty string. -/
def materializeEvent (windowStart windowEnd : Int) : VEventDesc → List CalendarEvent
  | .recurring uid summary description location attendees candidates duration =>
      (expandOccurrences windowStart windowEnd candidates).map (fun occ =>
        { uid := uid ++ "-" ++ toString occ,
          summary := summary.getD "Untitled Event",
          description := description.getD "",
          location := location.getD "",
          start := occ,
          end_ := occ + duration,
          attendees := attendees })
  | .singular uid summary description location attendees startDate endDate =>
      if windowStart ≤ startDate ∧ startDate ≤ windowEnd then
        [{ uid := uid,
           summary := summary.getD "Untitled Event",
           description := description.getD "",
           location := location.getD "",
           start := startDate,
           end_ := endDate,
           attendees := attendees }]
      else []

/-- The `allEvents` array accumulated over all decoded VEVENTs. -/
def allMaterialized (windowStart windowEnd : Int) (descs : List VEventDesc) :
    List CalendarEvent :=
  descs.flatMap (materializeEvent windowStart windowEnd)

/-- The deduplication key of src/main.ts line 293:
the template literal `${event.summary}-${event.start.getTime()}`. -/
def dedupKey (e : CalendarEvent) : String :=
  e.summary ++ "-" ++ toString e.start

/-- The dedup pass (src/main.ts lines 291-299): a `Map` keyed by
`dedupKey` keeps only the first event seen per key, and
`Array.from(map.values())` returns survivors in first-insertion order.
`seen` is the set of keys already present in the map. -/
def dedupEvents (seen : List String) : List CalendarEvent → List CalendarEvent
  | [] => []
  | e :: rest =>
    if dedupKey e ∈ seen then dedupEvents seen rest
    else e :: dedupEvents (dedupKey e :: seen) rest

/-- The final sort of src/main.ts line 302:
`this.events.sort((a, b) => a.start.getTime() - b.start.getTime())`.
JavaScript guarantees a stable sort, and the stable sort by a total
preorder is unique, so insertion sort renders it exactly. -/
def sortByStart (events : List CalendarEvent) : List CalendarEvent :=
  events.insertionSort (fun a b => a.start ≤ b.start)

/-- The pure core of `parseICSData` (src/main.ts lines 207-318): decode
(supplied as `descs`), materialize per event, deduplicate, sort. -/
def parseICSData (windowStart windowEnd : Int) (descs : List VEventDesc) :
    List CalendarEvent :=
  sortByStart (dedupEvents [] (allMaterialized windowStart windowEnd descs))

/-- Milliseconds per day, hour, minute. -/
def msPerDay : Int := 86400000

/-- JavaScript `Date.prototype.getHours` for a timestamp, with local time
taken equal to UTC (the plugin performs no time-zone conversion). -/
def hoursOf (t : Int) : Int := (t.fdiv 3600000).emod 24

/-- JavaScript `Date.prototype.getMinutes` under the same convention. -/
def minutesOf (t : Int) : Int := (t.fdiv 60000).emod 60

/-- `setHours(0, 0, 0, 0)`: the local midnight at or before `t`. -/
def midnightOf (t : Int) : Int := t - t.emod msPerDay

/-- `isAllDayEvent` (src/main.ts lines 535-542): start and end both have
zero hours and minutes (seconds and milliseconds are not inspected). -/
def isAllDayEvent (e : CalendarEvent) : Bool :=
  decide (hoursOf e.start = 0) && decide (minutesOf e.start = 0) &&
  decide (hoursOf e.end_ = 0) && decide (minutesOf e.end_ = 0)

/-- The day-overlap test inside `getEventsForDate` (src/main.ts lines
489-515): the `hideAllDayEvents` early return, then the 1 ms end
adjustment for all-day events, then the three-clause overlap check. -/
def matchesDay (hideAllDayEvents : Bool) (dayStart dayEnd : Int)
    (e : CalendarEvent) : Bool :=
  if hideAllDayEvents && isAllDayEvent e then false
  else
    let eventStart := e.start
    let eventEnd := if isAllDayEvent e then e.end_ - 1 else e.end_
    decide ((dayStart ≤ eventStart ∧ eventStart ≤ dayEnd) ∨
      (dayStart ≤ eventEnd ∧ eventEnd ≤ dayEnd) ∨
      (eventStart < dayStart ∧ eventEnd > dayEnd))

/-- The display comparator of src/main.ts lines 520-530 as a `≤` test:
all-day events sort before timed ones, ties fall back to start time. -/
def displayLE (a b : CalendarEvent) : Prop :=
  if isAllDayEvent a && !isAllDayEvent b then True
  else if !isAllDayEvent a && isAllDayEvent b then False
  else a.start ≤ b.start

instance : DecidableRel displayLE := by
  unfold displayLE
  intro a b
  infer_instance

/-- `getEventsForDate` (src/main.ts lines 479-533): clamp the query date
to its local day `[00:00:00.000, 23:59:59.999]`, filter by overlap, then
sort all-day events first and by start time within each class. -/
def getEventsForDate (hideAllDayEvents : Bool) (events : List CalendarEvent)
    (date : Int) : List CalendarEvent :=
  let dayStart := midnightOf date
  let dayEnd := dayStart + (msPerDay - 1)
  (events.filter (matchesDay hideAllDayEvents dayStart dayEnd)).insertionSort displayLE

/-- Outcome of one refresh run: the resulting in-memory event list, the
user-facing notices raised in order, and the cache write (if any). -/
structure RefreshResult where
  events : List CalendarEvent
  notices : List String
  cacheWrite : Option (List CalendarEvent)
deriving DecidableEq

/-- `parseICSData` as a state transition (src/main.ts lines 207-318): a
successful decode replaces the event list and writes the cache; a decode
failure (`ICAL.parse` throwing) is caught, keeps the prior list, and
raises `new Notice('Error parsing calendar data')` unconditionally —
this notice does not depend on how the refresh was triggered.  The
external decoder `ICAL.parse` is supplied as a function. -/
def parseICSDataRun (decoder : String → Option (List VEventDesc))
    (windowStart windowEnd : Int) (icsData : String)
    (prior : List CalendarEvent) : RefreshResult :=
  match decoder icsData with
  | some descs =>
      let evs := parseICSData windowStart windowEnd descs
      { events := evs, notices := [], cacheWrite := some evs }
  | none =>
      { events := prior, notices := ["Error parsing calendar data"],
        cacheWrite := none }

/-- `fetchCalendarEvents(isManual)` (src/main.ts lines 168-205): the HTTP
layer is supplied as `response` (`none` models a transport error thrown
by `requestUrl`; `some (status, text)` a completed request).  Manual
refreshes add progress/summary notices; a non-200 status or transport
error aborts, keeping the prior list.  Because `parseICSData` catches its
own errors, the manual success notice `Loaded N calendar events` is shown
even after a decode failure, with `N` the prior count. -/
def fetchCalendarEvents (decoder : String → Option (List VEventDesc))
    (windowStart windowEnd : Int) (isManual : Bool) (icsUrl : String)
    (response : Option (Int × String)) (prior : List CalendarEvent) :
    RefreshResult :=
  if icsUrl = "" then
    { events := prior,
      notices := if isManual then ["Please configure ICS URL in settings"] else [],
      cacheWrite := none }
  else
    let pre := if isManual then ["Fetching calendar events..."] else []
    match response with
    | none =>
        { events := prior,
          notices := pre ++
            (if isManual then ["Error fetching calendar events. Check console for details."] else []),
          cacheWrite := none }
    | some (status, text) =>
        if status = 200 then
          let r := parseICSDataRun decoder windowStart windowEnd text prior
          { events := r.events,
            notices := pre ++ r.notices ++
              (if isManual then
                ["Loaded " ++ toString r.events.length ++ " calendar events"] else []),
            cacheWrite := r.cacheWrite }
        else
          { events := prior,
            notices := pre ++
              (if isManual then ["Error fetching calendar events. Check console for details."] else []),
            cacheWrite := none }

/-- Days-to-civil-date conversion (year, month, day) for a day count
relative to 1970-01-01, as performed by the JavaScript engine behind
`Date.prototype.toISOString` (proleptic Gregorian, Howard Hinnant's
`civil_from_days` algorithm).  Valid for nonnegative day counts. -/
def civilFromDays (z : Nat) : Nat × Nat × Nat :=
  let z2 := z + 719468
  let era := z2 / 146097
  let doe := z2 % 146097
  let yoe := (doe - doe / 1460 + doe / 36524 - doe / 146096) / 365
  let y := yoe + era * 400
  let doy := doe - (365 * yoe + yoe / 4 - yoe / 100)
  let mp := (5 * doy + 2) / 153
  let d := doy - (153 * mp + 2) / 5 + 1
  let m := if mp < 10 then mp + 3 else mp - 9
  (if m ≤ 2 then y + 1 else y, m, d)

/-- Civil-date-to-days conversion, inverse direction (Hinnant's
`days_from_civil`), as performed by the engine when parsing an ISO
date-time string.  Valid for dates at or after 1970-03-01 minus a year,
in particular for every date printed from a nonnegative timestamp. -/
def daysFromCivil (y m d : Nat) : Nat :=
  let y2 := if m ≤ 2 then y - 1 else y
  let era := y2 / 400
  let yoe := y2 % 400
  let doy := (153 * (if 2 < m then m - 3 else m + 9) + 2) / 5 + d - 1
  let doe := yoe * 365 + yoe / 4 - yoe / 100 + doy
  era * 146097 + doe - 719468

/-- The decimal digit character for `n < 10`. -/
def digitChar (n : Nat) : Char := Char.ofNat (48 + n)

/-- The numeric value of a decimal digit character. -/
def digitVal (c : Char) : Nat := c.toNat - 48

/-- Two-digit zero-padded decimal rendering (for `n < 100`). -/
def pad2 (n : Nat) : List Char := [digitChar (n / 10), digitChar (n % 10)]

/-- Three-digit zero-padded decimal rendering (for `n < 1000`). -/
def pad3 (n : Nat) : List Char :=
  [digitChar (n / 100), digitChar (n / 10 % 10), digitChar (n % 10)]

/-- Four-digit zero-padded decimal rendering (for `n < 10000`). -/
def pad4 (n : Nat) : List Char :=
  [digitChar (n / 1000), digitChar (n / 100 % 10), digitChar (n / 10 % 10),
   digitChar (n % 10)]

/-- Character list of `Date.prototype.toISOString` for a nonnegative
timestamp `t` (epoch milliseconds) with a four-digit year:
`YYYY-MM-DDTHH:mm:ss.sssZ`. -/
def isoChars (t : Nat) : List Char :=
  let days := t / 86400000
  let rem := t % 86400000
  let ymd := civilFromDays days
  pad4 ymd.1 ++ [ '-' ] ++ pad2 ymd.2.1 ++ [ '-' ] ++ pad2 ymd.2.2 ++
  [ 'T' ] ++ pad2 (rem / 3600000) ++ [ ':' ] ++ pad2 (rem / 60000 % 60) ++
  [ ':' ] ++ pad2 (rem / 1000 % 60) ++ [ '.' ] ++ pad3 (rem % 1000) ++ [ 'Z' ]

/-- `event.start.toISOString()` as used by `saveEvents` (src/main.ts
lines 156-160).  Only nonnegative timestamps below the year 10000 are in
scope; the cache never holds anything else. -/
def toISOString (t : Int) : String := String.mk (isoChars t.toNat)

/-- Parsing of the exact `YYYY-MM-DDTHH:mm:ss.sssZ` shape by
`new Date(string)` (src/main.ts lines 132-135): fixed-width fields, all
digits, punctuation in place, fields range-checked.  Any other input
yields `none`, standing for an invalid date. -/
def parseISOChars : List Char → Option Nat
  | [y3, y2, y1, y0, c1, m1, m0, c2, d1, d0, c3, h1, h0, c4, i1, i0, c5,
     s1, s0, c6, x2, x1, x0, c7] =>
    if c1 = '-' ∧ c2 = '-' ∧ c3 = 'T' ∧ c4 = ':' ∧ c5 = ':' ∧ c6 = '.' ∧
        c7 = 'Z' ∧
        [y3, y2, y1, y0, m1, m0, d1, d0, h1, h0, i1, i0, s1, s0, x2, x1,
          x0].all Char.isDigit then
      let y := digitVal y3 * 1000 + digitVal y2 * 100 + digitVal y1 * 10 +
        digitVal y0
      let mo := digitVal m1 * 10 + digitVal m0
      let da := digitVal d1 * 10 + digitVal d0
      let h := digitVal h1 * 10 + digitVal h0
      let mi := digitVal i1 * 10 + digitVal i0
      let se := digitVal s1 * 10 + digitVal s0
      let ms := digitVal x2 * 100 + digitVal x1 * 10 + digitVal x0
      if 1 ≤ mo ∧ mo ≤ 12 ∧ 1 ≤ da ∧ da ≤ 31 ∧ h ≤ 23 ∧ mi ≤ 59 ∧
          se ≤ 59 then
        some (daysFromCivil y mo da * 86400000 + h * 3600000 + mi * 60000 +
          se * 1000 + ms)
      else none
    else none
  | _ => none

/-- `new Date(s).getTime()` for a stored timestamp string. -/
def parseISODate (s : String) : Option Int :=
  (parseISOChars s.data).map (fun n => (n : Int))

/-- The serialized form of one cached event: `saveEvents` spreads the
event and replaces `start`/`end` by ISO strings (src/main.ts 156-160). -/
structure StoredEvent where
  uid : String
  summary : String
  description : String
  location : String
  start : String
  end_ : String
  attendees : List String
deriving DecidableEq

/-- The persisted plugin record handled by `loadData`/`saveData`:
settings fields plus the optional `cachedEvents` array.  Every field is
optional because the stored JSON object may lack any of them. -/
structure PluginData where
  icsUrl : Option String := none
  templatePath : Option String := none
  notesFolder : Option String := none
  trimTeamsLinks : Option Bool := none
  hideAllDayEvents : Option Bool := none
  cachedEvents : Option (List StoredEvent) := none
deriving DecidableEq

/-- Serialization of one event (the map body in src/main.ts 156-160). -/
def serializeEvent (e : CalendarEvent) : StoredEvent :=
  { uid := e.uid, summary := e.summary, description := e.description,
    location := e.location, start := toISOString e.start,
    end_ := toISOString e.end_, attendees := e.attendees }

/-- `saveEvents` (src/main.ts lines 152-166) as a transformation of the
persisted record: read the existing record (`await this.loadData() || {}`,
so a missing record becomes the empty object), then write it back with
only `cachedEvents` replaced. -/
def saveEvents (events : List CalendarEvent) (existing : Option PluginData) :
    PluginData :=
  let data := existing.getD {}
  { data with cachedEvents := some (events.map serializeEvent) }

/-- Deserialization of one stored event (the map body in src/main.ts
132-136).  `new Date` on an unparseable string yields an invalid date — a
value outside the integer-timestamp model — rendered here as 0; it is
never reached on round-trip inputs. -/
def deserializeEvent (s : StoredEvent) : CalendarEvent :=
  { uid := s.uid, summary := s.summary, description := s.description,
    location := s.location, start := (parseISODate s.start).getD 0,
    end_ := (parseISODate s.end_).getD 0, attendees := s.attendees }

/-- What `await this.loadData()` produced inside `loadCachedEvents`:
either the read threw (corrupt persisted JSON, or a malformed
`cachedEvents` making the `.map` throw — both caught by the surrounding
`try`), or it returned no record, or it returned a record. -/
inductive LoadResult where
  | failure
  | ok (data : Option PluginData)

/-- `loadCachedEvents` (src/main.ts lines 127-150): replace the event
list from the cache only when a record with a `cachedEvents` field was
read successfully; every failure or absence leaves the prior list (the
initial `[]` at startup) untouched, and no error escapes. -/
def loadCachedEvents (r : LoadResult) (prior : List CalendarEvent) :
    List CalendarEvent :=
  match r with
  | .failure => prior
  | .ok none => prior
  | .ok (some data) =>
      match data.cachedEvents with
      | none => prior
      | some stored => stored.map deserializeEvent

/-! ## Lemmas about expansion and materialization -/

theorem expandOccurrences_cons (ws we occ : Int) (rest : List Int) :
    expandOccurrences ws we (occ :: rest) =
      if we < occ then []
      else if ws ≤ occ ∧ occ ≤ we then occ :: expandOccurrences ws we rest
      else expandOccurrences ws we rest := rfl

theorem mem_expandOccurrences {ws we t : Int} :
    ∀ {l : List Int}, t ∈ expandOccurrences ws we l → ws ≤ t ∧ t ≤ we
  | [], h => by simp [expandOccurrences] at h
  | occ :: rest, h => by
    rw [expandOccurrences_cons] at h
    split at h
    · simp at h
    · split at h
      · rcases List.mem_cons.mp h with h1 | h1
        · subst h1; assumption
        · exact mem_expandOccurrences h1
      · exact mem_expandOccurrences h

theorem expandOccurrences_stop {ws we x : Int} (rest : List Int) (h : we < x) :
    expandOccurrences ws we (x :: rest) = [] := by
  rw [expandOccurrences_cons, if_pos h]

theorem expandOccurrences_append {ws we : Int} :
    ∀ {l : List Int}, (∀ x ∈ l, x ≤ we) → ∀ rest,
      expandOccurrences ws we (l ++ rest) =
        l.filter (fun t => decide (ws ≤ t ∧ t ≤ we)) ++ expandOccurrences ws we rest
  | [], _, rest => by simp
  | occ :: l, h, rest => by
    have hocc : occ ≤ we := h occ (by simp)
    have hl : ∀ x ∈ l, x ≤ we := fun x hx => h x (by simp [hx])
    rw [List.cons_append, expandOccurrences_cons, if_neg (by omega),
      expandOccurrences_append hl rest, List.filter_cons]
    by_cases hin : ws ≤ occ ∧ occ ≤ we
    · simp [hin]
    · simp [hin]

theorem mem_dedupEvents {e : CalendarEvent} :
    ∀ {seen : List String} {l : List CalendarEvent},
      e ∈ dedupEvents seen l → e ∈ l
  | _, [], h => by simp [dedupEvents] at h
  | seen, x :: l, h => by
    unfold dedupEvents at h
    split at h
    · exact List.mem_cons_of_mem _ (mem_dedupEvents h)
    · rcases List.mem_cons.mp h with h1 | h1
      · simp [h1]
      · exact List.mem_cons_of_mem _ (mem_dedupEvents h1)

theorem dedupEvents_key_not_seen {e : CalendarEvent} :
    ∀ {seen : List String} {l : List CalendarEvent},
      e ∈ dedupEvents seen l → dedupKey e ∉ seen
  | _, [], h => by simp [dedupEvents] at h
  | seen, x :: l, h => by
    unfold dedupEvents at h
    split at h
    · exact dedupEvents_key_not_seen h
    · next hnot =>
      rcases List.mem_cons.mp h with h1 | h1
      · subst h1; exact hnot
      · have := dedupEvents_key_not_seen h1
        intro hmem
        exact this (List.mem_cons_of_mem _ hmem)

theorem dedupEvents_pairwise :
    ∀ (seen : List String) (l : List CalendarEvent),
      (dedupEvents seen l).Pairwise (fun a b => dedupKey a ≠ dedupKey b)
  | _, [] => by simp [dedupEvents]
  | seen, x :: l => by
    unfold dedupEvents
    split
    · exact dedupEvents_pairwise seen l
    · refine List.pairwise_cons.mpr ⟨?_, dedupEvents_pairwise _ l⟩
      intro b hb heq
      exact dedupEvents_key_not_seen hb (by simp [heq])

theorem mem_parseICSData {ws we : Int} {descs : List VEventDesc}
    {e : CalendarEvent} (h : e ∈ parseICSData ws we descs) :
    e ∈ allMaterialized ws we descs := by
  unfold parseICSData sortByStart at h
  exact mem_dedupEvents ((List.perm_insertionSort _ _).mem_iff.mp h)

theorem allMaterialized_start_mem_window {ws we : Int} {descs : List VEventDesc}
    {e : CalendarEvent} (h : e ∈ allMaterialized ws we descs) :
    ws ≤ e.start ∧ e.start ≤ we := by
  unfold allMaterialized at h
  rcases List.mem_flatMap.mp h with ⟨d, _, hme⟩
  cases d with
  | recurring uid summary description location attendees candidates duration =>
    simp only [materializeEvent, List.mem_map] at hme
    rcases hme with ⟨occ, hocc, rfl⟩
    exact mem_expandOccurrences hocc
  | singular uid summary description location attendees s en =>
    simp only [materializeEvent] at hme
    split at hme
    · next hin => simp only [List.mem_singleton] at hme; subst hme; exact hin
    · simp at hme

/-- The first `n` occurrence starts produced by a recurrence rule's
generator `gen` (the successive values of `expand.next().toJSDate()`). -/
def occPrefixList (gen : Nat → Int) (n : Nat) : List Int :=
  (List.range n).map gen

/-- C1.  Every occurrence start emitted by the recurrence expansion lies
inside the closed window, and consequently every event materialized by
`parseICSData` — recurring occurrence or singular — has its start inside
`[windowStart, windowEnd]`; nothing outside the window reaches the
canonical list. -/
theorem expansion_window_bound (ws we : Int) :
    (∀ (candidates : List Int) (t : Int),
        t ∈ expandOccurrences ws we candidates → ws ≤ t ∧ t ≤ we) ∧
    (∀ (descs : List VEventDesc) (e : CalendarEvent),
        e ∈ parseICSData ws we descs → ws ≤ e.start ∧ e.start ≤ we) := by
  refine ⟨fun candidates t ht => mem_expandOccurrences ht, ?_⟩
  intro descs e he
  exact allMaterialized_start_mem_window (mem_parseICSData he)

theorem expansion_window_bound_witness :
    (3 : Int) ≤ 5 ∧ (5 : Int) ≤ 9 := by
  have h := (expansion_window_bound 3 9).1 [5] 5 (by decide)
  exact h

/-- C2.  For a rule whose generator `gen` is non-decreasing and whose
candidate at index `stop` is the first to exceed `windowEnd`, the
expansion loop of `parseICSData` consumes exactly the candidates up to
`stop`: however many further candidates the (possibly unbounded) rule
could supply, the emitted list is the window filter of the first `stop`
candidates, so the `break` terminates the iteration there. -/
theorem expansion_terminates_at_first_exceed (ws we : Int) (gen : Nat → Int)
    (stop n : Nat) (_hmono : ∀ i j, i ≤ j → gen i ≤ gen j)
    (hstop : we < gen stop) (hbefore : ∀ i, i < stop → gen i ≤ we)
    (hn : stop < n) :
    expandOccurrences ws we (occPrefixList gen n) =
      (occPrefixList gen stop).filter (fun t => decide (ws ≤ t ∧ t ≤ we)) := by
  have hsplit : occPrefixList gen n =
      occPrefixList gen stop ++ (gen stop ::
        (List.range (n - stop - 1)).map (fun x => gen (stop + 1 + x))) := by
    unfold occPrefixList
    have : n = stop + (1 + (n - stop - 1)) := by omega
    rw [this, List.range_add, List.map_append]
    congr 1
    rw [List.range_add, List.map_append]
    simp [List.range_succ_eq_map, Function.comp]
  rw [hsplit, expandOccurrences_append, expandOccurrences_stop _ hstop,
    List.append_nil]
  intro x hx
  rcases List.mem_map.mp hx with ⟨i, hi, rfl⟩
  exact hbefore i (List.mem_range.mp hi)

theorem expansion_terminates_at_first_exceed_witness :
    expandOccurrences 2 5 (occPrefixList (fun i => (i : Int)) 9) =
      (occPrefixList (fun i => (i : Int)) 6).filter
        (fun t => decide (2 ≤ t ∧ t ≤ 5)) :=
  expansion_terminates_at_first_exceed 2 5 (fun i => (i : Int)) 6 9
    (fun i j h => by exact Int.ofNat_le.mpr h) (by decide)
    (fun i hi => by show (i : Int) ≤ 5; omega) (by decide)

/-- C3, counterexample.  Two singular descriptors that share the feed uid
`A` but differ in summary survive deduplication (their keys differ), so
the canonical list contains two entries with the same `uid`: uid need not
be unique after deduplication. -/
theorem uid_not_unique_after_dedup :
    ¬ (parseICSData 0 0
        [.singular "A" (some "X") none none [] 0 0,
         .singular "A" (some "Y") none none [] 0 0]).Pairwise
      (fun a b => a.uid ≠ b.uid) := by
  unfold parseICSData sortByStart
  rw [(List.perm_insertionSort _ _).pairwise_iff (fun hab h => hab h.symm)]
  decide

/-- C3, amended.  What deduplication does make unique in the canonical
list is the dedup key `summary + '-' + startMillis`: any two distinct
entries of the output of `parseICSData` differ on that key.  The `uid`
field itself is not deduplicated and can repeat when distinct decoded
descriptors share a feed uid. -/
theorem dedupKey_unique_after_dedup (ws we : Int) (descs : List VEventDesc) :
    (parseICSData ws we descs).Pairwise (fun a b => dedupKey a ≠ dedupKey b) := by
  unfold parseICSData sortByStart
  rw [(List.perm_insertionSort _ _).pairwise_iff (fun hab h => hab h.symm)]
  exact dedupEvents_pairwise _ _

/-- Descriptor sanity mirroring the decode-level invariant the spec
assumes: a singular event's decoded end is at or after its start, and a
recurring event's base duration is nonnegative. -/
def descDurationOK : VEventDesc → Prop
  | .singular _ _ _ _ _ s e => s ≤ e
  | .recurring _ _ _ _ _ _ duration => 0 ≤ duration

/-- C4, counterexample.  `parseICSData` copies a singular descriptor's
start and end verbatim and never compares them, so a decoded event whose
end precedes its start reaches the canonical list unchanged: the output
can contain an event with `end < start`. -/
theorem end_before_start_reaches_output :
    ¬ (∀ e ∈ parseICSData 0 10 [.singular "u" (some "s") none none [] 5 3],
        e.start ≤ e.end_) := by
  intro h
  have hmem : CalendarEvent.mk "u" "s" "" "" 5 3 [] ∈
      parseICSData 0 10 [.singular "u" (some "s") none none [] 5 3] := by
    unfold parseICSData sortByStart
    rw [(List.perm_insertionSort _ _).mem_iff]
    decide
  have := h _ hmem
  simp at this

/-- C4, amended.  Provided every decoded descriptor is duration-sane
(singular: `end >= start`; recurring: nonnegative base duration), every
event in the canonical list satisfies `end >= start`: the recurring
branch computes `end = start + duration` and the singular branch passes
both timestamps through, and dedup/sort only select and reorder. -/
theorem end_ge_start_of_desc_ok (ws we : Int) (descs : List VEventDesc)
    (h : ∀ d ∈ descs, descDurationOK d) :
    ∀ e ∈ parseICSData ws we descs, e.start ≤ e.end_ := by
  intro e he
  have hall := mem_parseICSData he
  unfold allMaterialized at hall
  rcases List.mem_flatMap.mp hall with ⟨d, hd, hme⟩
  have hok := h d hd
  cases d with
  | recurring uid summary description location attendees candidates duration =>
    simp only [materializeEvent, List.mem_map] at hme
    rcases hme with ⟨occ, _, rfl⟩
    simp only [descDurationOK] at hok
    simpa using hok
  | singular uid summary description location attendees s en =>
    simp only [materializeEvent] at hme
    split at hme
    · simp only [List.mem_singleton] at hme
      subst hme
      simpa [descDurationOK] using hok
    · simp at hme

theorem end_ge_start_of_desc_ok_witness :
    (∀ d ∈ [VEventDesc.recurring "r" (some "s") none none [] [1, 3] 2],
      descDurationOK d) ∧
    (∀ e ∈ parseICSData 0 10
        [VEventDesc.recurring "r" (some "s") none none [] [1, 3] 2],
      e.start ≤ e.end_) := by
  refine ⟨?_, end_ge_start_of_desc_ok 0 10 _ ?_⟩ <;>
    · intro d hd
      simp only [List.mem_singleton] at hd
      subst hd
      simp [descDurationOK]

/-- C5, counterexample.  The `catch` inside `parseICSData` raises
`new Notice('Error parsing calendar data')` whether or not the refresh
was manual, so a background refresh of an unparseable feed does produce a
user-facing notification. -/
theorem background_refresh_notifies_on_parse_error :
    (fetchCalendarEvents (fun _ => none) 0 0 false "u" (some (200, "x"))
      []).notices ≠ [] := by
  decide

/-- C5, amended.  Manual and background refreshes run the same
fetch-materialize-store pipeline: on identical inputs they produce the
identical event list and the identical cache write, and differ only in
notices.  A background refresh is silent except in one case — a feed that
fetches with status 200 but fails ICS parsing raises the
`Error parsing calendar data` notice regardless of entry point. -/
theorem manual_background_same_core
    (decoder : String → Option (List VEventDesc)) (ws we : Int)
    (icsUrl : String) (response : Option (Int × String))
    (prior : List CalendarEvent) :
    (fetchCalendarEvents decoder ws we true icsUrl response prior).events =
      (fetchCalendarEvents decoder ws we false icsUrl response prior).events ∧
    (fetchCalendarEvents decoder ws we true icsUrl response prior).cacheWrite =
      (fetchCalendarEvents decoder ws we false icsUrl response prior).cacheWrite ∧
    ((fetchCalendarEvents decoder ws we false icsUrl response prior).notices = [] ∨
     (fetchCalendarEvents decoder ws we false icsUrl response prior).notices =
       ["Error parsing calendar data"]) := by
  unfold fetchCalendarEvents
  by_cases hurl : icsUrl = ""
  · simp [hurl]
  · cases response with
    | none => simp [hurl]
    | some st =>
      obtain ⟨status, text⟩ := st
      by_cases hst : status = 200
      · unfold parseICSDataRun
        cases hdec : decoder text <;> simp [hurl, hst, hdec]
      · simp [hurl, hst]

/-- C6, counterexample.  The dedup key is the bare string
`summary + '-' + startMillis`, so the pair is not recoverable from it: a
summary ending in a hyphen collides with a pre-1970 start whose
millisecond value prints with a leading minus sign.  Here two decoded
events share summary `a` and start `-5`, yet the canonical list contains
no entry at all for that pair — the colliding earlier event with summary
`a-` and start `5` claimed the key first. -/
theorem dedup_key_collision_drops_pair :
    ((allMaterialized (-5) 5
        [.singular "u1" (some "a-") none none [] 5 5,
         .singular "u2" (some "a") none none [] (-5) (-5),
         .singular "u3" (some "a") none none [] (-5) (-5)]).countP
      (fun e => decide (e.summary = "a" ∧ e.start = -5)) = 2) ∧
    ((parseICSData (-5) 5
        [.singular "u1" (some "a-") none none [] 5 5,
         .singular "u2" (some "a") none none [] (-5) (-5),
         .singular "u3" (some "a") none none [] (-5) (-5)]).countP
      (fun e => decide (e.summary = "a" ∧ e.start = -5)) = 0) := by
  constructor
  · decide
  · decide

theorem filter_dedupEvents_of_seen {k : String} {seen : List String}
    (l : List CalendarEvent) (hk : k ∈ seen) :
    (dedupEvents seen l).filter (fun e => decide (dedupKey e = k)) = [] := by
  rw [List.filter_eq_nil_iff]
  intro e he
  simp only [decide_eq_true_eq]
  intro heq
  exact dedupEvents_key_not_seen he (heq ▸ hk)

theorem filter_dedupEvents_find? {k : String} {first : CalendarEvent} :
    ∀ {seen : List String} {l : List CalendarEvent}, k ∉ seen →
      l.find? (fun e => decide (dedupKey e = k)) = some first →
      (dedupEvents seen l).filter (fun e => decide (dedupKey e = k)) = [first]
  | _, [], _, hf => by simp at hf
  | seen, e :: rest, hk, hf => by
    by_cases he : dedupKey e = k
    · rw [List.find?_cons_of_pos _ (by simp [he])] at hf
      injection hf with hf
      subst hf
      unfold dedupEvents
      rw [if_neg (fun hmem => hk (he ▸ hmem)), List.filter_cons_of_pos (by simp [he]),
        filter_dedupEvents_of_seen _ (by simp [he])]
    · rw [List.find?_cons_of_neg _ (by simp [he])] at hf
      unfold dedupEvents
      split
      · exact filter_dedupEvents_find? hk hf
      · rw [List.filter_cons_of_neg (by simp [he])]
        exact filter_dedupEvents_find?
          (by simp only [List.mem_cons]; rintro (h1 | h1)
              · exact he h1.symm
              · exact hk h1) hf

/-- C6, amended.  Deduplication is first-seen-wins keyed by the string
`summary + '-' + startMillis` (never by uid): whenever some materialized
event has key `k` and `first` is the earliest such event in feed order,
the canonical list contains exactly `first` as its only entry with key
`k`.  Because the key is a flat string, it identifies the (summary,
start) pair only when start is nonnegative; summaries containing `-`
together with negative starts can collide (see the counterexample). -/
theorem dedup_first_seen_by_key (ws we : Int) (descs : List VEventDesc)
    (k : String) (first : CalendarEvent)
    (h : (allMaterialized ws we descs).find?
      (fun e => decide (dedupKey e = k)) = some first) :
    (parseICSData ws we descs).filter (fun e => decide (dedupKey e = k)) =
      [first] := by
  unfold parseICSData sortByStart
  have hbase := filter_dedupEvents_find? (List.not_mem_nil k) h
  have hperm := (List.perm_insertionSort
    (fun a b : CalendarEvent => a.start ≤ b.start)
    (dedupEvents [] (allMaterialized ws we descs))).filter
    (fun e => decide (dedupKey e = k))
  rw [hbase] at hperm
  exact List.perm_singleton.mp hperm

theorem dedup_first_seen_by_key_witness :
    (parseICSData 0 1000
        [.singular "u1" (some "Standup") none none [] 100 200,
         .singular "u2" (some "Standup") none none [] 100 300]).filter
      (fun e => decide (dedupKey e = "Standup-100")) =
      [CalendarEvent.mk "u1" "Standup" "" "" 100 200 []] :=
  dedup_first_seen_by_key 0 1000 _ "Standup-100" _ (by decide)

/-- C7.  For an event classified all-day, `getEventsForDate` (with the
hide-all-day flag off) applies the day-overlap rule with the event's end
reduced by one millisecond: membership in the day query is equivalent to
membership in the list plus the three-clause overlap test evaluated at
`end - 1`. -/
theorem allday_overlap_uses_end_minus_one (events : List CalendarEvent)
    (e : CalendarEvent) (date : Int) (h : isAllDayEvent e = true) :
    e ∈ getEventsForDate false events date ↔
      e ∈ events ∧
        ((midnightOf date ≤ e.start ∧ e.start ≤ midnightOf date + (msPerDay - 1)) ∨
         (midnightOf date ≤ e.end_ - 1 ∧
           e.end_ - 1 ≤ midnightOf date + (msPerDay - 1)) ∨
         (e.start < midnightOf date ∧
           e.end_ - 1 > midnightOf date + (msPerDay - 1))) := by
  unfold getEventsForDate
  rw [(List.perm_insertionSort _ _).mem_iff, List.mem_filter]
  unfold matchesDay
  simp [h]

/-- The all-day event of spec §8 property 5: start 2025-06-10T00:00,
end 2025-06-11T00:00, in epoch milliseconds (local time = UTC). -/
def juneTenAllDay : CalendarEvent :=
  CalendarEvent.mk "u" "s" "" "" 1749513600000 1749600000000 []

theorem allday_overlap_uses_end_minus_one_witness :
    isAllDayEvent juneTenAllDay = true ∧
    juneTenAllDay ∈ getEventsForDate false [juneTenAllDay] 1749513600000 ∧
    juneTenAllDay ∉ getEventsForDate false [juneTenAllDay] 1749600000000 := by
  refine ⟨by decide, ?_, ?_⟩
  · exact (allday_overlap_uses_end_minus_one _ _ _ (by decide)).mpr
      ⟨by decide, by decide⟩
  · intro hmem
    have h2 := ((allday_overlap_uses_end_minus_one _ _ _ (by decide)).mp hmem).2
    revert h2
    decide

/-- C9.  `loadCachedEvents` is a total function of the load outcome — the
`try`/`catch` means no error reaches the caller — and any failed read,
absent record, or record without a `cachedEvents` field leaves the prior
list untouched; at startup the prior list is `[]`, so a missing or
unparseable cache degrades to an empty starting list. -/
theorem load_cached_events_degrades (prior : List CalendarEvent) :
    loadCachedEvents .failure prior = prior ∧
    loadCachedEvents (.ok none) prior = prior ∧
    (∀ d : PluginData, d.cachedEvents = none →
      loadCachedEvents (.ok (some d)) prior = prior) ∧
    loadCachedEvents .failure [] = [] := by
  refine ⟨rfl, rfl, ?_, rfl⟩
  intro d hd
  simp [loadCachedEvents, hd]

theorem load_cached_events_degrades_witness :
    loadCachedEvents (.ok (some {})) [] = [] :=
  (load_cached_events_degrades []).2.2.1 {} rfl

/-- C10.  `saveEvents` reads the existing persisted record and writes it
back with only `cachedEvents` replaced: the persisted settings fields
`icsUrl`, `templatePath`, `notesFolder`, `trimTeamsLinks` and
`hideAllDayEvents` survive every cache save unchanged. -/
theorem save_events_frame (events : List CalendarEvent) (d : PluginData) :
    (saveEvents events (some d)).icsUrl = d.icsUrl ∧
    (saveEvents events (some d)).templatePath = d.templatePath ∧
    (saveEvents events (some d)).notesFolder = d.notesFolder ∧
    (saveEvents events (some d)).trimTeamsLinks = d.trimTeamsLinks ∧
    (saveEvents events (some d)).hideAllDayEvents = d.hideAllDayEvents ∧
    (saveEvents events (some d)).cachedEvents =
      some (events.map serializeEvent) :=
  ⟨rfl, rfl, rfl, rfl, rfl, rfl⟩

/-! ## Round-trip correctness of the civil-calendar conversions

`civilFromDays` and `daysFromCivil` are mutually inverse on the day range
the cache can mention (1970-01-01 up to 9999-12-31).  The year-of-era
formula inside `civilFromDays` is validated at the 400 year boundaries of
one era and extended to every day by monotonicity. -/

/-- Day-of-era on which year-of-era `y` starts (year 0 = a leap year
starting the era on day 0, Hinnant's March-based numbering). -/
def yearStartDays (y : Nat) : Nat := 365 * y + y / 4 - y / 100

/-- The year-of-era numerator used by `civilFromDays`. -/
def eraDayAdjust (doe : Nat) : Nat :=
  doe - doe / 1460 + doe / 36524 - doe / 146096

/-- Conjunction of a boolean predicate over the block
`[lo * 2 ^ d, (lo + 1) * 2 ^ d)`. -/
def boolRange (p : Nat → Bool) : Nat → Nat → Bool
  | 0, lo => p lo
  | d + 1, lo => boolRange p d (2 * lo) && boolRange p d (2 * lo + 1)

theorem boolRange_sound (p : Nat → Bool) :
    ∀ (d lo : Nat), boolRange p d lo = true →
      ∀ i, i < 2 ^ d → p (lo * 2 ^ d + i) = true
  | 0, lo, h, i, hi => by
    interval_cases i
    simpa [boolRange] using h
  | d + 1, lo, h, i, hi => by
    rcases Bool.and_eq_true_iff.mp (by simpa [boolRange] using h) with ⟨h1, h2⟩
    by_cases hsplit : i < 2 ^ d
    · have := boolRange_sound p d (2 * lo) h1 i hsplit
      have harg : 2 * lo * 2 ^ d + i = lo * 2 ^ (d + 1) + i := by
        rw [pow_succ]; ring
      rwa [harg] at this
    · have hi2 : i - 2 ^ d < 2 ^ d := by
        have : 2 ^ (d + 1) = 2 ^ d + 2 ^ d := by ring
        omega
      have := boolRange_sound p d (2 * lo + 1) h2 (i - 2 ^ d) hi2
      have harg : (2 * lo + 1) * 2 ^ d + (i - 2 ^ d) = lo * 2 ^ (d + 1) + i := by
        rw [pow_succ]
        have h1 : (2 * lo + 1) * 2 ^ d = lo * (2 ^ d * 2) + 2 ^ d := by ring
        omega
      rwa [harg] at this

/-- The per-year boundary check: at the first day of year `y` the
adjusted day count has reached `365 * y`, and at the last day of year `y`
it is still below `365 * (y + 1)`. -/
def yearCheckOK (y : Nat) : Bool :=
  decide (400 ≤ y) ||
  (decide (365 * y ≤ eraDayAdjust (yearStartDays y)) &&
   decide (eraDayAdjust
      ((if y = 399 then 146097 else yearStartDays (y + 1)) - 1) ≤
     365 * y + 364))

theorem yearChecksHold : boolRange yearCheckOK 9 0 = true := by decide

theorem yearCheck_of_lt {y : Nat} (h : y < 400) :
    365 * y ≤ eraDayAdjust (yearStartDays y) ∧
    eraDayAdjust ((if y = 399 then 146097 else yearStartDays (y + 1)) - 1) ≤
      365 * y + 364 := by
  have := boolRange_sound yearCheckOK 9 0 yearChecksHold y (by omega)
  rw [Nat.zero_mul, Nat.zero_add] at this
  unfold yearCheckOK at this
  rcases Bool.or_eq_true_iff.mp this with h4 | h4
  · exact absurd (of_decide_eq_true h4) (by omega)
  · rcases Bool.and_eq_true_iff.mp h4 with ⟨h5, h6⟩
    exact ⟨of_decide_eq_true h5, of_decide_eq_true h6⟩

theorem yearStartDays_step (y : Nat) :
    yearStartDays y + 365 ≤ yearStartDays (y + 1) ∧
    yearStartDays (y + 1) ≤ yearStartDays y + 366 := by
  unfold yearStartDays; omega

theorem yearStartDays_le {y : Nat} (h : y ≤ 399) :
    yearStartDays y ≤ 145731 := by
  unfold yearStartDays; omega

theorem eraDayAdjust_step (doe : Nat) (h : doe + 1 ≤ 146096) :
    eraDayAdjust doe ≤ eraDayAdjust (doe + 1) := by
  unfold eraDayAdjust; omega

theorem eraDayAdjust_mono : ∀ (k a : Nat), a + k ≤ 146096 →
    eraDayAdjust a ≤ eraDayAdjust (a + k)
  | 0, a, _ => le_refl _
  | k + 1, a, h => by
    have h1 := eraDayAdjust_mono k a (by omega)
    have h2 := eraDayAdjust_step (a + k) (by omega)
    have heq : a + (k + 1) = a + k + 1 := by omega
    rw [heq]
    omega

theorem eraDayAdjust_mono_le {a b : Nat} (hab : a ≤ b) (hb : b ≤ 146096) :
    eraDayAdjust a ≤ eraDayAdjust b := by
  have := eraDayAdjust_mono (b - a) a (by omega)
  rwa [Nat.add_sub_cancel' hab] at this

/-- The year-of-era computed by `civilFromDays` is correct: it is below
400, its start does not exceed the given day-of-era, and the day falls
within its (at most 366-day) span. -/
theorem yoe_spec (doe : Nat) (h : doe < 146097) :
    eraDayAdjust doe / 365 < 400 ∧
    yearStartDays (eraDayAdjust doe / 365) ≤ doe ∧
    doe - yearStartDays (eraDayAdjust doe / 365) ≤ 365 := by
  have htop : eraDayAdjust doe ≤ eraDayAdjust 146096 :=
    eraDayAdjust_mono_le (by omega) (by omega)
  have htopval : eraDayAdjust 146096 = 145999 := by decide
  have hlt : eraDayAdjust doe / 365 < 400 := by omega
  set yoe := eraDayAdjust doe / 365 with hyoe
  refine ⟨hlt, ?_, ?_⟩
  · -- start of year yoe is at or before doe
    by_contra hcon
    push_neg at hcon
    have hy1 : 1 ≤ yoe := by
      rcases Nat.eq_zero_or_pos yoe with h0 | h0
      · rw [h0] at hcon; unfold yearStartDays at hcon; omega
      · exact h0
    have hchk := (yearCheck_of_lt (show yoe - 1 < 400 by omega)).2
    rw [if_neg (show ¬ yoe - 1 = 399 by omega)] at hchk
    have hind : yoe - 1 + 1 = yoe := by omega
    rw [hind] at hchk
    -- doe ≤ yearStartDays yoe - 1, so eraDayAdjust doe ≤ 365 * (yoe - 1) + 364
    have hmono : eraDayAdjust doe ≤ eraDayAdjust (yearStartDays yoe - 1) := by
      apply eraDayAdjust_mono_le (by omega)
      have := yearStartDays_le (show yoe ≤ 399 by omega)
      omega
    have hdiv : 365 * yoe ≤ eraDayAdjust doe := by
      have := Nat.div_mul_le_self (eraDayAdjust doe) 365
      omega
    omega
  · -- doe lies within 366 days of the start of year yoe
    by_contra hcon
    push_neg at hcon
    by_cases hlast : yoe = 399
    · rw [hlast] at hcon
      have h399 : yearStartDays 399 = 145731 := by decide
      omega
    · have hchk := (yearCheck_of_lt (show yoe + 1 < 400 by omega)).1
      have hstep := yearStartDays_step yoe
      have hmono : eraDayAdjust (yearStartDays (yoe + 1)) ≤ eraDayAdjust doe := by
        apply eraDayAdjust_mono_le (by omega) (by omega)
      omega

/-- Recomposition: from a day-of-era below 146097 and an era index in the
cache's range, the year/month/day that `civilFromDays` assembles are
mapped back by `daysFromCivil` to the original day count, and all
components lie in printable ranges. -/
theorem daysFromCivil_recompose (era doe : Nat) (hdoe : doe < 146097)
    (hera : era ≤ 24) (hlast : era = 24 → doe ≤ 146036)
    (yoe doy mp d m y : Nat)
    (hyoe : yoe = eraDayAdjust doe / 365)
    (hdoy : doy = doe - yearStartDays yoe)
    (hmp : mp = (5 * doy + 2) / 153)
    (hd : d = doy - (153 * mp + 2) / 5 + 1)
    (hm : m = if mp < 10 then mp + 3 else mp - 9)
    (hy : y = if m ≤ 2 then yoe + era * 400 + 1 else yoe + era * 400) :
    daysFromCivil y m d = era * 146097 + doe - 719468 ∧
    1 ≤ m ∧ m ≤ 12 ∧ 1 ≤ d ∧ d ≤ 31 ∧ y ≤ 9999 := by
  obtain ⟨h1, h2, h3⟩ := yoe_spec doe hdoe
  rw [← hyoe] at h1 h2 h3
  unfold yearStartDays at h2 h3 hdoy
  have hdoy365 : doy ≤ 365 := by omega
  have hT : (153 * mp + 2) / 5 ≤ doy ∧ doy - (153 * mp + 2) / 5 ≤ 30 ∧
      mp ≤ 11 := by omega
  by_cases hsmall : mp < 10
  · -- months March through December: m = mp + 3, year unadjusted
    have hm2 : m = mp + 3 := by rw [hm, if_pos hsmall]
    have hy2 : y = yoe + era * 400 := by rw [hy, if_neg (by omega)]
    refine ⟨?_, by omega, by omega, by omega, by omega, by omega⟩
    simp only [daysFromCivil]
    rw [if_neg (show ¬ m ≤ 2 by omega), if_pos (show 2 < m by omega)]
    have hma : m - 3 = mp := by omega
    rw [hma, hy2]
    have hera2 : (yoe + era * 400) / 400 = era := by omega
    have hyoe2 : (yoe + era * 400) % 400 = yoe := by omega
    rw [hera2, hyoe2]
    omega
  · -- January and February: m = mp - 9, year advanced by one
    have hm2 : m = mp - 9 := by rw [hm, if_neg hsmall]
    have hy2 : y = yoe + era * 400 + 1 := by rw [hy, if_pos (by omega)]
    have hy9999 : y ≤ 9999 := by
      rw [hy2]
      -- era 24 reaches year 9999 only from March on: a January/February
      -- day of year-of-era 399 in era 24 would lie past the day range
      omega
    refine ⟨?_, by omega, by omega, by omega, by omega, hy9999⟩
    simp only [daysFromCivil]
    rw [if_pos (show m ≤ 2 by omega), if_neg (show ¬ 2 < m by omega)]
    have hma : m + 9 = mp := by omega
    rw [hma, hy2]
    have hsub : yoe + era * 400 + 1 - 1 = yoe + era * 400 := by omega
    rw [hsub]
    have hera2 : (yoe + era * 400) / 400 = era := by omega
    have hyoe2 : (yoe + era * 400) % 400 = yoe := by omega
    rw [hera2, hyoe2]
    omega

/-- The era index of a day count. -/
def eraOf (z : Nat) : Nat := (z + 719468) / 146097

/-- The day-of-era of a day count. -/
def doeOf (z : Nat) : Nat := (z + 719468) % 146097

/-- The year-of-era `civilFromDays` computes. -/
def yoeOf (z : Nat) : Nat := eraDayAdjust (doeOf z) / 365

/-- The day-of-year `civilFromDays` computes. -/
def doyOf (z : Nat) : Nat := doeOf z - yearStartDays (yoeOf z)

/-- The March-based month index `civilFromDays` computes. -/
def mpOf (z : Nat) : Nat := (5 * doyOf z + 2) / 153

/-- The day-of-month `civilFromDays` computes. -/
def dayOf (z : Nat) : Nat := doyOf z - (153 * mpOf z + 2) / 5 + 1

/-- The calendar month `civilFromDays` computes. -/
def monthOf (z : Nat) : Nat :=
  if mpOf z < 10 then mpOf z + 3 else mpOf z - 9

/-- The calendar year `civilFromDays` computes. -/
def yearOf (z : Nat) : Nat :=
  if monthOf z ≤ 2 then yoeOf z + eraOf z * 400 + 1
  else yoeOf z + eraOf z * 400

theorem civilFromDays_eq (z : Nat) :
    civilFromDays z = (yearOf z, monthOf z, dayOf z) := rfl

/-- `daysFromCivil` inverts `civilFromDays` on every day count the cache
can mention (1970-01-01 through 9999-12-31), with printable fields. -/
theorem civilFromDays_spec (z : Nat) (h : z ≤ 2932896) :
    daysFromCivil (yearOf z) (monthOf z) (dayOf z) = z ∧
    1 ≤ monthOf z ∧ monthOf z ≤ 12 ∧ 1 ≤ dayOf z ∧ dayOf z ≤ 31 ∧
    yearOf z ≤ 9999 := by
  have hmain := daysFromCivil_recompose (eraOf z) (doeOf z)
    (Nat.mod_lt _ (by omega)) (by unfold eraOf; omega)
    (by unfold eraOf doeOf; omega)
    (yoeOf z) (doyOf z) (mpOf z) (dayOf z) (monthOf z) (yearOf z)
    rfl rfl rfl rfl rfl rfl
  have hz : eraOf z * 146097 + doeOf z - 719468 = z := by
    unfold eraOf doeOf; omega
  exact ⟨by rw [hmain.1, hz], hmain.2.1, hmain.2.2.1, hmain.2.2.2.1,
    hmain.2.2.2.2.1, hmain.2.2.2.2.2⟩

/-- Printing a valid timestamp and parsing it back is the identity:
`new Date(d.toISOString()).getTime() === d.getTime()`. -/
theorem parseISOChars_isoChars (t : Nat) (h : t < 253402300800000) :
    parseISOChars (isoChars t) = some t := by
  have hdays : t / 86400000 ≤ 2932896 := by omega
  obtain ⟨hrt, hm1, hm12, hd1, hd31, hy9999⟩ :=
    civilFromDays_spec (t / 86400000) hdays
  have hd10 : ∀ d : Nat, d < 10 →
      digitVal (digitChar d) = d ∧ (digitChar d).isDigit = true := by decide
  simp only [isoChars, civilFromDays_eq, pad4, pad2, pad3,
    List.cons_append, List.nil_append]
  set y := yearOf (t / 86400000) with hy
  set mo := monthOf (t / 86400000) with hmo
  set da := dayOf (t / 86400000) with hda
  set rem := t % 86400000 with hrem
  simp only [parseISOChars, List.all_cons, List.all_nil,
    (hd10 (y / 1000) (by omega)).1, (hd10 (y / 1000) (by omega)).2,
    (hd10 (y / 100 % 10) (by omega)).1, (hd10 (y / 100 % 10) (by omega)).2,
    (hd10 (y / 10 % 10) (by omega)).1, (hd10 (y / 10 % 10) (by omega)).2,
    (hd10 (y % 10) (by omega)).1, (hd10 (y % 10) (by omega)).2,
    (hd10 (mo / 10) (by omega)).1, (hd10 (mo / 10) (by omega)).2,
    (hd10 (mo % 10) (by omega)).1, (hd10 (mo % 10) (by omega)).2,
    (hd10 (da / 10) (by omega)).1, (hd10 (da / 10) (by omega)).2,
    (hd10 (da % 10) (by omega)).1, (hd10 (da % 10) (by omega)).2,
    (hd10 (rem / 3600000 / 10) (by omega)).1,
    (hd10 (rem / 3600000 / 10) (by omega)).2,
    (hd10 (rem / 3600000 % 10) (by omega)).1,
    (hd10 (rem / 3600000 % 10) (by omega)).2,
    (hd10 (rem / 60000 % 60 / 10) (by omega)).1,
    (hd10 (rem / 60000 % 60 / 10) (by omega)).2,
    (hd10 (rem / 60000 % 60 % 10) (by omega)).1,
    (hd10 (rem / 60000 % 60 % 10) (by omega)).2,
    (hd10 (rem / 1000 % 60 / 10) (by omega)).1,
    (hd10 (rem / 1000 % 60 / 10) (by omega)).2,
    (hd10 (rem / 1000 % 60 % 10) (by omega)).1,
    (hd10 (rem / 1000 % 60 % 10) (by omega)).2,
    (hd10 (rem % 1000 / 100) (by omega)).1,
    (hd10 (rem % 1000 / 100) (by omega)).2,
    (hd10 (rem % 1000 / 10 % 10) (by omega)).1,
    (hd10 (rem % 1000 / 10 % 10) (by omega)).2,
    (hd10 (rem % 1000 % 10) (by omega)).1,
    (hd10 (rem % 1000 % 10) (by omega)).2,
    Bool.and_true, Bool.true_and, and_true, true_and]
  rw [if_pos trivial, if_pos (by omega)]
  have hyrec : y / 1000 * 1000 + y / 100 % 10 * 100 + y / 10 % 10 * 10 +
      y % 10 = y := by omega
  have hmorec : mo / 10 * 10 + mo % 10 = mo := by omega
  have hdarec : da / 10 * 10 + da % 10 = da := by omega
  rw [hyrec, hmorec, hdarec, hrt]
  simp only [Option.some.injEq]
  omega

/-- A timestamp the cache can legitimately hold: nonnegative and before
the year 10000 (the range `toISOString` renders with four-digit years). -/
def tsValid (t : Int) : Prop := 0 ≤ t ∧ t < 253402300800000

theorem parseISODate_toISOString (t : Int) (h : tsValid t) :
    parseISODate (toISOString t) = some t := by
  obtain ⟨h0, hlt⟩ := h
  unfold toISOString parseISODate
  have hchars : (String.mk (isoChars t.toNat)).data = isoChars t.toNat := rfl
  rw [hchars, parseISOChars_isoChars t.toNat (by omega)]
  simp [Int.toNat_of_nonneg h0]

theorem deserializeEvent_serializeEvent (e : CalendarEvent)
    (hs : tsValid e.start) (he : tsValid e.end_) :
    deserializeEvent (serializeEvent e) = e := by
  cases e with
  | mk uid summary description location start end_ attendees =>
    simp only [serializeEvent, deserializeEvent] at *
    rw [parseISODate_toISOString _ hs, parseISODate_toISOString _ he]
    rfl

/-- C8.  Saving a canonical list and loading it back reproduces it
exactly: `saveEvents` stores each event with its timestamps rendered by
`toISOString`, `loadCachedEvents` maps them back through `new Date`, and
on valid timestamps the composition is the identity on every field, in
order, to millisecond precision. -/
theorem save_load_round_trip (events : List CalendarEvent)
    (existing : Option PluginData) (prior : List CalendarEvent)
    (h : ∀ e ∈ events, tsValid e.start ∧ tsValid e.end_) :
    loadCachedEvents (.ok (some (saveEvents events existing))) prior =
      events := by
  show (events.map serializeEvent).map deserializeEvent = events
  rw [List.map_map]
  have hpt : ∀ e ∈ events, (deserializeEvent ∘ serializeEvent) e = id e := by
    intro e he
    exact deserializeEvent_serializeEvent e (h e he).1 (h e he).2
  rw [List.map_congr_left hpt, List.map_id]

theorem save_load_round_trip_witness :
    loadCachedEvents
      (.ok (some (saveEvents
        [CalendarEvent.mk "w" "Sync" "desc" "room" 1749513600000 1749517200000
          ["Ada", "Grace"]] none))) [] =
      [CalendarEvent.mk "w" "Sync" "desc" "room" 1749513600000 1749517200000
        ["Ada", "Grace"]] :=
  save_load_round_trip _ none [] (by
    intro e he
    simp only [List.mem_singleton] at he
    subst he
    exact ⟨⟨by norm_num, by norm_num⟩, ⟨by norm_num, by norm_num⟩⟩)
